import Mathlib

/-!
Verification of the Resume Matching & Scoring Pipeline of the kanyarashi
(RecurAI) repository.

The embedding below follows the repository's sources:
- `src/database/schema.sql` — the relational data model (`resumes`,
  `analysis_sessions`, `resume_analyses`);
- `src/unnamed/part_005` — the migration adding the
  `UNIQUE(resume_id, analysis_session_id)` constraint and the SQL functions
  `is_resume_available_for_analysis`, `get_available_resumes` and
  `cleanup_orphaned_analyses`;
- `src/unnamed/part_009` — the documented Python pipeline:
  `extract_resume_text`, `analyze_resume_with_ai`, `_get_fallback_analysis`
  and the top-k chunk selection `sorted(chunks, key=lambda x: x[1])[:5]`.

Tables are lists of rows; ids are `Nat`; the nullable `job_posting_id`
column is `Option Nat` ("general" context is `none`); SQL `DECIMAL` score
columns are `Int` (the claims under study do not depend on fractional
values); timestamps are `Nat` ticks.
-/

namespace RecurAI

/-- Status column of `analysis_sessions` (schema.sql line 61):
pending, processing, completed, failed. -/
inductive SessionStatus where
  | pending
  | processing
  | completed
  | failed
deriving DecidableEq, Repr

/-- A row of the `resumes` table (schema.sql lines 39-53), restricted to the
columns the claims touch.  `s3_resume_key` is kept `Option String` because
`get_available_resumes` filters on `s3_resume_key IS NOT NULL`. -/
structure Resume where
  id : Nat
  user_id : Nat
  s3_resume_key : Option String
  file_name : String
  created_at : Nat
deriving DecidableEq, Repr

/-- A row of the `analysis_sessions` table (schema.sql lines 56-67).
`job_posting_id` is nullable: `none` is the "general" context. -/
structure AnalysisSession where
  id : Nat
  user_id : Nat
  job_posting_id : Option Nat
  status : SessionStatus
  total_resumes : Nat
  processed_resumes : Nat
deriving DecidableEq, Repr

/-- The five numeric score columns of a `resume_analyses` row. -/
structure Scores where
  overall_fit : Int
  skill_match : Int
  project_relevance : Int
  problem_solving : Int
  tools : Int
deriving DecidableEq, Repr

/-- A row of the `resume_analyses` table after the migration of
`src/unnamed/part_005` (lines 5-19): the many-to-many join between resumes
and analysis sessions. -/
structure ResumeAnalysis where
  resume_id : Nat
  analysis_session_id : Nat
  overall_fit_score : Int
  skill_match_score : Int
  project_relevance_score : Int
  problem_solving_score : Int
  tools_score : Int
  summary : String
deriving DecidableEq, Repr

/-- The database state: the three tables the claims are about. -/
structure DB where
  resumes : List Resume
  sessions : List AnalysisSession
  analyses : List ResumeAnalysis
deriving DecidableEq, Repr

/-- `is_resume_available_for_analysis` (src/unnamed/part_005 lines 61-86):
two branches on the null-ness of `p_job_posting_id`; each asks `NOT EXISTS`
of a `resume_analyses` row joined to its `analysis_sessions` row with the
matching job context and `status = 'completed'`.  In SQL the equality
`a.job_posting_id = p_job_posting_id` of the `ELSE` branch is never
satisfied by a `NULL` `job_posting_id`, hence the `== some jid` test. -/
def is_resume_available_for_analysis (db : DB) (p_resume_id : Nat)
    (p_job_posting_id : Option Nat) : Bool :=
  match p_job_posting_id with
  | none =>
      !(db.analyses.any fun ra =>
          ra.resume_id == p_resume_id &&
          (db.sessions.any fun a =>
            a.id == ra.analysis_session_id &&
            a.job_posting_id == none &&
            a.status == SessionStatus.completed))
  | some jid =>
      !(db.analyses.any fun ra =>
          ra.resume_id == p_resume_id &&
          (db.sessions.any fun a =>
            a.id == ra.analysis_session_id &&
            a.job_posting_id == some jid &&
            a.status == SessionStatus.completed))

/-- Insert `x` into `l` keeping `l`'s order among elements `x` does not
strictly precede: the insertion step of a stable sort — `x` goes before the
first element `y` with `le x y`. -/
def insertLe (le : α → α → Bool) (x : α) : List α → List α
  | [] => [x]
  | y :: ys => if le x y then x :: y :: ys else y :: insertLe le x ys

/-- Stable insertion sort: the model of both Python's stable `sorted` (used
on scored chunks in src/unnamed/part_009 line 206) and SQL `ORDER BY`. -/
def sortLe (le : α → α → Bool) : List α → List α
  | [] => []
  | x :: xs => insertLe le x (sortLe le xs)

/-- `get_available_resumes` (src/unnamed/part_005 lines 89-107): resumes of
`p_user_id` whose `s3_resume_key` is non-null and that satisfy
`is_resume_available_for_analysis`, ordered by `created_at DESC`. -/
def get_available_resumes (db : DB) (p_user_id : Nat)
    (p_job_posting_id : Option Nat) : List Resume :=
  sortLe (fun a b => b.created_at ≤ a.created_at)
    (db.resumes.filter fun r =>
      r.user_id == p_user_id &&
      r.s3_resume_key.isSome &&
      is_resume_available_for_analysis db r.id p_job_posting_id)

/-- `cleanup_orphaned_analyses` (src/unnamed/part_005 lines 131-144):
`DELETE FROM resume_analyses WHERE analysis_session_id NOT IN (SELECT id
FROM analysis_sessions)`, returning the deleted row count
(`GET DIAGNOSTICS ... = ROW_COUNT`). -/
def cleanup_orphaned_analyses (db : DB) : Nat × DB :=
  let deleted := db.analyses.filter fun ra =>
    !(db.sessions.any fun a => a.id == ra.analysis_session_id)
  let remaining := db.analyses.filter fun ra =>
    db.sessions.any fun a => a.id == ra.analysis_session_id
  (deleted.length, { db with analyses := remaining })

/-- The error of §4.6/§7 of the spec for a violated (resume, session)
uniqueness. -/
inductive RecordError where
  | DuplicateAnalysis
deriving DecidableEq, Repr

/-- A fresh `resume_analyses` row. -/
def mkAnalysisRow (resume_id analysis_session_id : Nat) (s : Scores)
    (summary : String) : ResumeAnalysis :=
  { resume_id := resume_id
    analysis_session_id := analysis_session_id
    overall_fit_score := s.overall_fit
    skill_match_score := s.skill_match
    project_relevance_score := s.project_relevance
    problem_solving_score := s.problem_solving
    tools_score := s.tools
    summary := summary }

/-- Modelled from the spec: the `record` operation of §4.6 — the backend
code performing the INSERT is not among the repository's source files; what
is in the sources is the `UNIQUE(resume_id, analysis_session_id)` constraint
it runs against (src/unnamed/part_005 line 18).  `record` is a plain INSERT
into `resume_analyses`: when a row for the pair already exists the unique
constraint rejects the insert — surfaced as `DuplicateAnalysis` — and the
table is left unchanged; otherwise exactly one new row is appended. -/
def record (db : DB) (resume_id session_id : Nat) (s : Scores)
    (summary : String) : Except RecordError DB :=
  if db.analyses.any fun ra =>
      ra.resume_id == resume_id && ra.analysis_session_id == session_id then
    .error .DuplicateAnalysis
  else
    .ok { db with
          analyses := db.analyses ++ [mkAnalysisRow resume_id session_id s summary] }

/-- A JSON value, the shape of what Python's `json.loads` yields for a
language-model reply in `analyze_resume_with_ai`
(src/unnamed/part_009 line 177). -/
inductive Json where
  | num (n : Int)
  | str (s : String)
  | obj (fields : List (String × Json))
  | arr (elems : List Json)
  | jbool (b : Bool)
  | null
deriving Repr

/-- First-match lookup of a key in a JSON object's field list: Python's
`result[field]` / `field in result` on the parsed dict. -/
def lookupField : List (String × Json) → String → Option Json
  | [], _ => none
  | (k, v) :: rest, name => if k == name then some v else lookupField rest name

/-- Field access on a JSON value (`none` off an object). -/
def getField (j : Json) (name : String) : Option Json :=
  match j with
  | .obj fields => lookupField fields name
  | _ => none

/-- The failure modes of the scoring call that the `try`/`except` of
`analyze_resume_with_ai` absorbs: provider errors of the `chain.invoke`
call, and `json.loads` raising on a malformed reply. -/
inductive CallFailure where
  | network
  | timeout
  | rateLimit
  | malformedResponse
deriving DecidableEq, Repr

/-- `_get_fallback_analysis` (src/unnamed/part_009 lines 640-649): the fixed
default returned on any scoring failure — all five numeric fields 70 and a
summary marking the analysis as unavailable. -/
def get_fallback_analysis : Json :=
  .obj [("Overall Fit", .num 70),
        ("Skill Match", .num 70),
        ("Project Relevance", .num 70),
        ("Problem Solving", .num 70),
        ("Tools", .num 70),
        ("Summary", .str "AI analysis temporarily unavailable due to rate limits. Please try again later or contact support to increase your API quota.")]

/-- The required fields of the model reply
(src/unnamed/part_009 line 180). -/
def required_fields : List String :=
  ["Overall Fit", "Skill Match", "Project Relevance", "Problem Solving",
   "Tools", "Summary"]

/-- The per-field default of the loop at src/unnamed/part_009 lines 181-183:
`result[field] = 70 if field != "Summary" else "Analysis completed"`. -/
def defaultFor (field : String) : Json :=
  if field == "Summary" then .str "Analysis completed" else .num 70

/-- One iteration of the required-field loop: `if field not in result:
result[field] = default`.  Present fields — numeric or not — are left
untouched; a missing field is added with its default. -/
def ensureField (fields : List (String × Json)) (name : String)
    (dflt : Json) : List (String × Json) :=
  if (lookupField fields name).isSome then fields else fields ++ [(name, dflt)]

/-- `analyze_resume_with_ai` (src/unnamed/part_009 lines 169-189) after the
language-model call: the call either fails (any exception, including
`json.loads` raising) — caught and answered with `_get_fallback_analysis` —
or yields a parsed JSON value; on a parsed object each required field that
is absent is defaulted, and a parsed non-object makes the subsequent
`field not in result` / item assignment raise, which the same `except`
turns into the fallback. -/
def analyze_resume_with_ai (response : Except CallFailure Json) : Json :=
  match response with
  | .error _ => get_fallback_analysis
  | .ok (.obj fields) =>
      .obj (required_fields.foldl (fun acc f => ensureField acc f (defaultFor f)) fields)
  | .ok _ => get_fallback_analysis

/-- MIME type the extractor dispatches to `_extract_from_pdf`. -/
def PDF_MIME : String := "application/pdf"

/-- MIME type the extractor dispatches to `_extract_from_docx`. -/
def DOCX_MIME : String :=
  "application/vnd.openxmlformats-officedocument.wordprocessingml.document"

/-- `extract_resume_text` (src/unnamed/part_009 lines 56-65): dispatch on
the declared MIME type; the two format-specific extractors are external
(PyPDF/python-docx), taken here as function parameters.  For any other
declared type the function returns the plain string "Unsupported file type"
— it does not raise. -/
def extract_resume_text (extract_from_pdf extract_from_docx : List Nat → String)
    (file_content : List Nat) (file_type : String) : String :=
  if file_type == PDF_MIME then extract_from_pdf file_content
  else if file_type == DOCX_MIME then extract_from_docx file_content
  else "Unsupported file type"

/-- The fallback score set (all five fields 70), as stored by the fallback
path. -/
def fallbackScores : Scores :=
  { overall_fit := 70, skill_match := 70, project_relevance := 70
    problem_solving := 70, tools := 70 }

/-- The mutable per-session progress the orchestrator maintains: the
`processed_resumes` counter and the session's `resume_analyses` rows. -/
structure SessionRun where
  processed_resumes : Nat
  rows : List ResumeAnalysis
deriving DecidableEq, Repr

/-- One per-resume task of a session: the resume id and its scoring outcome
— `some (scores, summary)` when the model call succeeded, `none` when it
failed and the fallback applies. -/
def TaskOutcome : Type := Nat × Option (Scores × String)

/-- Modelled from the spec: per-resume completion of the Session State
Machine (§4.5, §5) — the backend orchestrator performing the counter
increments is not among the repository's source files; the sources hold the
`total_resumes`/`processed_resumes` columns (schema.sql lines 62-63) and the
concurrent dispatch documentation (src/unnamed/part_009 lines 195-211).
Every per-resume completion, success or fallback, writes exactly one
`resume_analyses` row for its session and increments `processed_resumes` by
exactly one. -/
def complete_resume (sid : Nat) (st : SessionRun) (task : TaskOutcome) :
    SessionRun :=
  let payload := task.2.getD (fallbackScores,
    "AI analysis temporarily unavailable due to rate limits. Please try again later or contact support to increase your API quota.")
  { processed_resumes := st.processed_resumes + 1
    rows := st.rows ++ [mkAnalysisRow task.1 sid payload.1 payload.2] }

/-- Modelled from the spec: settling a whole session (§4.5) — all
per-resume tasks complete, in some order; the shared state after they all
settle does not depend on interleaving, so the fold is over an arbitrary
settling order. -/
def settle_session (sid : Nat) (tasks : List TaskOutcome) : SessionRun :=
  tasks.foldl (complete_resume sid) ⟨0, []⟩

/-- Indexed top-k selection over scored chunks
(src/unnamed/part_009 lines 204-208): `sorted(chunks, key=lambda x: x[1])`
is Python's stable ascending sort on the distance component, and `[:5]`
keeps the first `k` (default 5).  Chunks are paired with their original
positions so that stability is expressible; a pair is
`(original index, (chunk text, distance))`. -/
def query (pairs : List (String × Int)) (k : Nat := 5) :
    List (Nat × String × Int) :=
  (sortLe (fun a b => a.2.2 ≤ b.2.2) pairs.enum).take k

/-- Distance-then-original-position strict precedence: the order a stable
ascending-by-distance sort realises on distinctly-indexed input. -/
def StrictRank (a b : Nat × String × Int) : Prop :=
  a.2.2 < b.2.2 ∨ (a.2.2 = b.2.2 ∧ a.1 < b.1)

/-! ## Theorems -/

/-- C3: on any failure of the language-model call — network error, timeout,
rate-limit rejection, or a malformed response (`json.loads` raising) — the
scorer returns exactly the fixed fallback analysis: its five numeric fields
all equal 70 and its summary is the fixed reason string marking the
analysis as unavailable.  No error is propagated: the function is total and
answers every failure kind with this value. -/
theorem analyze_call_failure_returns_fallback (e : CallFailure) :
    analyze_resume_with_ai (.error e) = get_fallback_analysis
    ∧ getField (analyze_resume_with_ai (.error e)) "Overall Fit" = some (.num 70)
    ∧ getField (analyze_resume_with_ai (.error e)) "Skill Match" = some (.num 70)
    ∧ getField (analyze_resume_with_ai (.error e)) "Project Relevance" = some (.num 70)
    ∧ getField (analyze_resume_with_ai (.error e)) "Problem Solving" = some (.num 70)
    ∧ getField (analyze_resume_with_ai (.error e)) "Tools" = some (.num 70)
    ∧ getField (analyze_resume_with_ai (.error e)) "Summary"
        = some (.str "AI analysis temporarily unavailable due to rate limits. Please try again later or contact support to increase your API quota.") :=
  ⟨rfl, rfl, rfl, rfl, rfl, rfl, rfl⟩

/-- C6 counterexample: for a declared type that is neither PDF nor DOCX the
extractor does not fail with `UnsupportedFormat` — it returns normally, and
its result is the non-empty plain string "Unsupported file type", which
flows onward exactly like extracted text would. -/
theorem extract_unsupported_returns_sentinel_cex :
    extract_resume_text (fun _ => "pdf text") (fun _ => "docx text") []
        "text/plain" = "Unsupported file type"
    ∧ extract_resume_text (fun _ => "pdf text") (fun _ => "docx text") []
        "text/plain" ≠ "" :=
  ⟨rfl, by decide⟩

/-- C6 (amended): `extract_resume_text` dispatches by the declared MIME
type — PDF to the PDF extractor, DOCX to the DOCX extractor — and for every
other declared type returns the fixed sentinel string
"Unsupported file type" instead of raising `UnsupportedFormat`; no
extractor runs and no partial extracted text is produced in that case. -/
theorem extract_dispatch_spec (epdf edocx : List Nat → String)
    (content : List Nat) (t : String) :
    (t = PDF_MIME → extract_resume_text epdf edocx content t = epdf content)
    ∧ (t = DOCX_MIME → extract_resume_text epdf edocx content t = edocx content)
    ∧ (t ≠ PDF_MIME → t ≠ DOCX_MIME →
        extract_resume_text epdf edocx content t = "Unsupported file type") := by
  refine ⟨?_, ?_, ?_⟩
  · intro h; subst h
    simp [extract_resume_text]
  · intro h; subst h
    have h1 : (DOCX_MIME == PDF_MIME) = false := by decide
    simp [extract_resume_text, h1]
  · intro h1 h2
    have e1 : (t == PDF_MIME) = false := beq_eq_false_iff_ne.mpr h1
    have e2 : (t == DOCX_MIME) = false := beq_eq_false_iff_ne.mpr h2
    simp [extract_resume_text, e1, e2]

/-- One completion increments the processed counter by exactly one. -/
theorem complete_resume_processed (sid : Nat) (st : SessionRun)
    (task : TaskOutcome) :
    (complete_resume sid st task).processed_resumes
      = st.processed_resumes + 1 := rfl

/-- One completion appends exactly one row. -/
theorem complete_resume_rows_length (sid : Nat) (st : SessionRun)
    (task : TaskOutcome) :
    (complete_resume sid st task).rows.length = st.rows.length + 1 := by
  simp [complete_resume]

/-- A row present after one completion was already present or is the just
written row of the settled session. -/
theorem complete_resume_rows_mem (sid : Nat) (st : SessionRun)
    (task : TaskOutcome) (row : ResumeAnalysis)
    (h : row ∈ (complete_resume sid st task).rows) :
    row ∈ st.rows ∨ row.analysis_session_id = sid := by
  simp only [complete_resume, List.mem_append, List.mem_singleton] at h
  rcases h with h | h
  · exact Or.inl h
  · subst h; exact Or.inr rfl

/-- Settling a list of per-resume tasks from an arbitrary starting state:
each completion adds exactly one to the processed counter and exactly one
row, and every added row belongs to the settled session. -/
theorem settle_foldl_counts (sid : Nat) (tasks : List TaskOutcome)
    (init : SessionRun) :
    (tasks.foldl (complete_resume sid) init).processed_resumes
        = init.processed_resumes + tasks.length
    ∧ (tasks.foldl (complete_resume sid) init).rows.length
        = init.rows.length + tasks.length
    ∧ ∀ row ∈ (tasks.foldl (complete_resume sid) init).rows,
        row ∈ init.rows ∨ row.analysis_session_id = sid := by
  induction tasks generalizing init with
  | nil => exact ⟨rfl, rfl, fun row h => Or.inl h⟩
  | cons t ts ih =>
    simp only [List.foldl_cons]
    obtain ⟨h1, h2, h3⟩ := ih (complete_resume sid init t)
    refine ⟨?_, ?_, ?_⟩
    · rw [h1, complete_resume_processed]; simp only [List.length_cons]; omega
    · rw [h2, complete_resume_rows_length]; simp only [List.length_cons]; omega
    · intro row hr
      rcases h3 row hr with h | h
      · exact complete_resume_rows_mem sid init t row h
      · exact Or.inr h

/-- C8: for a session over N resume tasks, after all per-resume tasks
settle — for any mix of failed (fallback) and successful scoring outcomes,
in any settling order — `processed_resumes` equals N and exactly N
`resume_analyses` rows for the session exist, because every per-resume
completion (success or fallback) increments the counter by exactly one and
writes exactly one row. -/
theorem settle_session_counts (sid : Nat) (tasks : List TaskOutcome) :
    (settle_session sid tasks).processed_resumes = tasks.length
    ∧ (settle_session sid tasks).rows.length = tasks.length
    ∧ ∀ row ∈ (settle_session sid tasks).rows,
        row.analysis_session_id = sid := by
  obtain ⟨h1, h2, h3⟩ := settle_foldl_counts sid tasks ⟨0, []⟩
  refine ⟨by simpa using h1, by simpa using h2, ?_⟩
  intro row hr
  rcases h3 row hr with h | h
  · simp at h
  · exact h

/-- C1: for every database state, resume R and job context C (a specific
job id or the null/general context), `is_resume_available_for_analysis` is
false exactly when some `resume_analyses` row for R joins to an
`analysis_sessions` row whose status is completed and whose
`job_posting_id` equals C — where `Option` equality makes the null/general
context equal only to itself.  Consequently sessions in pending, processing
or failed status never make R unavailable, and a resume fully analyzed for
one job stays available for the general context and for every other job. -/
theorem is_resume_available_false_iff (db : DB) (R : Nat) (C : Option Nat) :
    is_resume_available_for_analysis db R C = false ↔
      ∃ ra ∈ db.analyses, ra.resume_id = R ∧
        ∃ a ∈ db.sessions, a.id = ra.analysis_session_id ∧
          a.status = SessionStatus.completed ∧ a.job_posting_id = C := by
  cases C with
  | none =>
    simp only [is_resume_available_for_analysis, Bool.not_eq_false',
      List.any_eq_true, Bool.and_eq_true, beq_iff_eq]
    tauto
  | some jid =>
    simp only [is_resume_available_for_analysis, Bool.not_eq_false',
      List.any_eq_true, Bool.and_eq_true, beq_iff_eq]
    tauto

/-- C2: when no `resume_analyses` row for the pair (resume, session)
exists, `record` succeeds and appends exactly one row for the pair; a
second `record` call for the same pair fails with `DuplicateAnalysis`,
creating no second row and leaving the first row's content in place (the
error branch returns no new state, so nothing is overwritten). -/
theorem record_enforces_uniqueness (db : DB) (rid sid : Nat)
    (s s' : Scores) (sm sm' : String)
    (h : ∀ ra ∈ db.analyses,
      ¬(ra.resume_id = rid ∧ ra.analysis_session_id = sid)) :
    ∃ db', record db rid sid s sm = .ok db'
      ∧ db'.analyses = db.analyses ++ [mkAnalysisRow rid sid s sm]
      ∧ (db'.analyses.countP fun ra =>
          ra.resume_id == rid && ra.analysis_session_id == sid) = 1
      ∧ record db' rid sid s' sm' = .error .DuplicateAnalysis := by
  have hany : (db.analyses.any fun ra =>
      ra.resume_id == rid && ra.analysis_session_id == sid) = false := by
    rw [List.any_eq_false]
    intro ra hra
    simp only [Bool.and_eq_true, beq_iff_eq]
    exact h ra hra
  have hrec : record db rid sid s sm
      = .ok { db with analyses := db.analyses ++ [mkAnalysisRow rid sid s sm] } := by
    simp [record, hany]
  refine ⟨_, hrec, rfl, ?_, ?_⟩
  · rw [List.countP_append]
    have h0 : (db.analyses.countP fun ra =>
        ra.resume_id == rid && ra.analysis_session_id == sid) = 0 := by
      rw [List.countP_eq_zero]
      intro ra hra
      simp only [Bool.and_eq_true, beq_iff_eq]
      exact h ra hra
    rw [h0]
    simp [mkAnalysisRow, List.countP_cons]
  · have hdup : ((db.analyses ++ [mkAnalysisRow rid sid s sm]).any fun ra =>
        ra.resume_id == rid && ra.analysis_session_id == sid) = true := by
      simp [mkAnalysisRow]
    simp [record, hdup]

/-- C2 witness: the uniqueness theorem at a concrete empty database. -/
theorem record_enforces_uniqueness_witness :
    (∀ ra ∈ (⟨[], [], []⟩ : DB).analyses,
        ¬(ra.resume_id = 1 ∧ ra.analysis_session_id = 2))
    ∧ ∃ db', record ⟨[], [], []⟩ 1 2 fallbackScores "first" = .ok db'
        ∧ db'.analyses
            = (⟨[], [], []⟩ : DB).analyses ++ [mkAnalysisRow 1 2 fallbackScores "first"]
        ∧ (db'.analyses.countP fun ra =>
            ra.resume_id == 1 && ra.analysis_session_id == 2) = 1
        ∧ record db' 1 2 fallbackScores "second" = .error .DuplicateAnalysis :=
  ⟨by simp, record_enforces_uniqueness ⟨[], [], []⟩ 1 2 fallbackScores
    fallbackScores "first" "second" (by simp)⟩

/-- A list splits into the elements satisfying a boolean predicate and
those falsifying it. -/
theorem countP_bool_split (p : α → Bool) (l : List α) :
    l.countP p + l.countP (fun a => !p a) = l.length := by
  induction l with
  | nil => simp
  | cons x xs ih =>
    cases hx : p x <;> simp [List.countP_cons, hx] <;> omega

/-- C9: the orphan cleanup sweep removes exactly those `resume_analyses`
rows whose `analysis_sessions` row no longer exists and returns the number
of rows deleted; every row whose session still exists is kept unchanged and
in order (the remaining table is a sublist of the original), and the other
tables are untouched. -/
theorem cleanup_orphaned_spec (db : DB) :
    (∀ ra, ra ∈ (cleanup_orphaned_analyses db).2.analyses ↔
        ra ∈ db.analyses ∧ ∃ a ∈ db.sessions, a.id = ra.analysis_session_id)
    ∧ List.Sublist (cleanup_orphaned_analyses db).2.analyses db.analyses
    ∧ (cleanup_orphaned_analyses db).1
        = db.analyses.countP (fun ra =>
            !(db.sessions.any fun a => a.id == ra.analysis_session_id))
    ∧ (cleanup_orphaned_analyses db).1
        + (cleanup_orphaned_analyses db).2.analyses.length
        = db.analyses.length
    ∧ (cleanup_orphaned_analyses db).2.sessions = db.sessions
    ∧ (cleanup_orphaned_analyses db).2.resumes = db.resumes := by
  refine ⟨?_, ?_, ?_, ?_, rfl, rfl⟩
  · intro ra
    simp [cleanup_orphaned_analyses, List.mem_filter, List.any_eq_true,
      beq_iff_eq]
  · exact List.filter_sublist db.analyses
  · simp [cleanup_orphaned_analyses, List.countP_eq_length_filter]
  · have hsplit := countP_bool_split
      (fun ra => db.sessions.any fun a => a.id == ra.analysis_session_id)
      db.analyses
    simp only [cleanup_orphaned_analyses]
    rw [← List.countP_eq_length_filter, ← List.countP_eq_length_filter]
    omega

/-- Lookup across an appended field list: the left part wins when it binds
the key. -/
theorem lookupField_append (fs gs : List (String × Json)) (m : String) :
    lookupField (fs ++ gs) m
      = match lookupField fs m with
        | some v => some v
        | none => lookupField gs m := by
  induction fs with
  | nil => rfl
  | cons kv rest ih =>
    obtain ⟨k, v⟩ := kv
    cases hkm : (k == m) <;> simp [lookupField, hkm, ih]

/-- A key bound on the left keeps its value across an append. -/
theorem lookupField_append_some {fs : List (String × Json)}
    (gs : List (String × Json)) {m : String} {v : Json}
    (h : lookupField fs m = some v) : lookupField (fs ++ gs) m = some v := by
  rw [lookupField_append, h]

/-- A key unbound on the left resolves in the appended part. -/
theorem lookupField_append_none {fs : List (String × Json)}
    (gs : List (String × Json)) {m : String}
    (h : lookupField fs m = none) :
    lookupField (fs ++ gs) m = lookupField gs m := by
  rw [lookupField_append, h]

/-- `ensureField` never changes the value of a key that is already bound —
present fields, numeric or not, pass through untouched. -/
theorem ensureField_preserves {fs : List (String × Json)} {n : String}
    {d : Json} {m : String} {v : Json} (h : lookupField fs m = some v) :
    lookupField (ensureField fs n d) m = some v := by
  cases hn : (lookupField fs n).isSome <;> simp only [ensureField, hn]
  · simp only [if_false, Bool.false_eq_true, ite_false]
    exact lookupField_append_some _ h
  · simpa using h

/-- `ensureField` for one key does not affect lookups of another key. -/
theorem ensureField_other {fs : List (String × Json)} {n : String}
    {d : Json} {m : String} (hnm : (n == m) = false) :
    lookupField (ensureField fs n d) m = lookupField fs m := by
  cases hn : (lookupField fs n).isSome <;> simp only [ensureField, hn]
  · simp only [if_false, Bool.false_eq_true, ite_false]
    rw [lookupField_append]
    cases hfm : lookupField fs m
    · simp [lookupField, hnm]
    · rfl
  · simp

/-- `ensureField` binds a previously missing key to the supplied default. -/
theorem ensureField_adds_default {fs : List (String × Json)} {n : String}
    {d : Json} (h : lookupField fs n = none) :
    lookupField (ensureField fs n d) n = some d := by
  have hns : (lookupField fs n).isSome = false := by rw [h]; rfl
  simp only [ensureField, hns, Bool.false_eq_true, ite_false]
  rw [lookupField_append_none _ h]
  simp [lookupField]

/-- The required-field loop never changes the value of a key that is
already bound in the parsed reply. -/
theorem foldl_ensure_preserves (names : List String)
    (fs : List (String × Json)) {m : String} {v : Json}
    (h : lookupField fs m = some v) :
    lookupField
      (names.foldl (fun acc g => ensureField acc g (defaultFor g)) fs) m
      = some v := by
  induction names generalizing fs with
  | nil => exact h
  | cons n ns ih => exact ih _ (ensureField_preserves h)

/-- After the required-field loop, every listed field resolves to its
original value when the reply bound it and to its default otherwise. -/
theorem foldl_ensure_required (names : List String)
    (fs : List (String × Json)) (f : String) (hf : f ∈ names) :
    lookupField
      (names.foldl (fun acc g => ensureField acc g (defaultFor g)) fs) f
      = some ((lookupField fs f).getD (defaultFor f)) := by
  induction names generalizing fs with
  | nil => cases hf
  | cons n ns ih =>
    simp only [List.foldl_cons]
    by_cases hfn : f = n
    · subst hfn
      cases hlook : lookupField fs f with
      | none =>
        have h1 := @ensureField_adds_default fs f (defaultFor f) hlook
        simpa [hlook] using foldl_ensure_preserves ns _ h1
      | some w =>
        have h1 := @ensureField_preserves fs f (defaultFor f) f w hlook
        simpa [hlook] using foldl_ensure_preserves ns _ h1
    · have hne : (n == f) = false := beq_eq_false_iff_ne.mpr fun hh => hfn hh.symm
      have hf' : f ∈ ns := by
        rcases List.mem_cons.mp hf with h | h
        · exact absurd h hfn
        · exact h
      rw [ih _ hf', ensureField_other hne]

/-- C4 counterexample: the claim's fallback conditions do not hold on the
code.  A reply whose "Skill Match" is the non-numeric string "high" (all
other fields present) is returned with that value untouched rather than
answered with the fallback analysis; and a reply missing only "Summary" has
the summary defaulted to "Analysis completed" rather than triggering the
fallback. -/
theorem analyze_validation_cex :
    analyze_resume_with_ai (.ok (.obj
        [("Overall Fit", .num 80), ("Skill Match", .str "high"),
         ("Project Relevance", .num 75), ("Problem Solving", .num 75),
         ("Tools", .num 75), ("Summary", .str "ok")]))
      ≠ get_fallback_analysis
    ∧ getField (analyze_resume_with_ai (.ok (.obj
        [("Overall Fit", .num 80), ("Skill Match", .str "high"),
         ("Project Relevance", .num 75), ("Problem Solving", .num 75),
         ("Tools", .num 75), ("Summary", .str "ok")]))) "Skill Match"
        = some (.str "high")
    ∧ analyze_resume_with_ai (.ok (.obj
        [("Overall Fit", .num 80), ("Skill Match", .num 80),
         ("Project Relevance", .num 80), ("Problem Solving", .num 80),
         ("Tools", .num 80)]))
      ≠ get_fallback_analysis
    ∧ getField (analyze_resume_with_ai (.ok (.obj
        [("Overall Fit", .num 80), ("Skill Match", .num 80),
         ("Project Relevance", .num 80), ("Problem Solving", .num 80),
         ("Tools", .num 80)]))) "Summary"
        = some (.str "Analysis completed") := by
  refine ⟨?_, rfl, ?_, rfl⟩
  · intro h
    have h2 : (some (Json.str "high") : Option Json) = some (Json.num 70) := by
      calc (some (Json.str "high") : Option Json)
          = getField (analyze_resume_with_ai (.ok (.obj
              [("Overall Fit", .num 80), ("Skill Match", .str "high"),
               ("Project Relevance", .num 75), ("Problem Solving", .num 75),
               ("Tools", .num 75), ("Summary", .str "ok")]))) "Skill Match" := rfl
        _ = getField get_fallback_analysis "Skill Match" := by rw [h]
        _ = some (Json.num 70) := rfl
    simp at h2
  · intro h
    have h2 : (some (Json.num 80) : Option Json) = some (Json.num 70) := by
      calc (some (Json.num 80) : Option Json)
          = getField (analyze_resume_with_ai (.ok (.obj
              [("Overall Fit", .num 80), ("Skill Match", .num 80),
               ("Project Relevance", .num 80), ("Problem Solving", .num 80),
               ("Tools", .num 80)]))) "Overall Fit" := rfl
        _ = getField get_fallback_analysis "Overall Fit" := by rw [h]
        _ = some (Json.num 70) := rfl
    simp at h2

/-- C4 (amended): if the call or the JSON parse fails, the fallback policy
answers instead of propagating the exception; when the reply parses to an
object, each of the six required fields is resolved independently — a field
bound in the reply keeps its value exactly as returned (numeric or not, no
fallback is triggered by a non-numeric value), a missing numeric field is
defaulted to 70, and a missing "Summary" is defaulted to the string
"Analysis completed" — without invalidating the rest of the response. -/
theorem analyze_missing_fields_defaulted (fs : List (String × Json))
    (f : String) (hf : f ∈ required_fields) :
    getField (analyze_resume_with_ai (.ok (.obj fs))) f
      = some ((lookupField fs f).getD (defaultFor f))
    ∧ analyze_resume_with_ai (.error .malformedResponse)
        = get_fallback_analysis :=
  ⟨foldl_ensure_required required_fields fs f hf, rfl⟩

/-- C4 witness: the amended claim at a reply binding only "Overall Fit",
read at the missing field "Skill Match" (defaulted to 70). -/
theorem analyze_missing_fields_defaulted_witness :
    "Skill Match" ∈ required_fields
    ∧ (getField (analyze_resume_with_ai (.ok (.obj
          [("Overall Fit", Json.num 80)]))) "Skill Match"
        = some ((lookupField [("Overall Fit", Json.num 80)] "Skill Match").getD
            (defaultFor "Skill Match"))
      ∧ analyze_resume_with_ai (.error .malformedResponse)
          = get_fallback_analysis) :=
  ⟨by decide,
   analyze_missing_fields_defaulted [("Overall Fit", Json.num 80)]
     "Skill Match" (by decide)⟩

/-- C5 counterexample: out-of-range model scores are not clamped to
[0,100] — a reply with "Overall Fit" 150 and "Skill Match" -5 is stored
with exactly those values. -/
theorem no_clamping_cex :
    getField (analyze_resume_with_ai (.ok (.obj
        [("Overall Fit", .num 150), ("Skill Match", .num (-5)),
         ("Project Relevance", .num 75), ("Problem Solving", .num 75),
         ("Tools", .num 75), ("Summary", .str "ok")]))) "Overall Fit"
      = some (.num 150)
    ∧ getField (analyze_resume_with_ai (.ok (.obj
        [("Overall Fit", .num 150), ("Skill Match", .num (-5)),
         ("Project Relevance", .num 75), ("Problem Solving", .num 75),
         ("Tools", .num 75), ("Summary", .str "ok")]))) "Skill Match"
      = some (.num (-5))
    ∧ ¬((150 : Int) ≤ 100)
    ∧ ¬((0 : Int) ≤ -5) :=
  ⟨rfl, rfl, by decide, by decide⟩

/-- C5 (amended): the scorer performs no clamping at all — every field the
model reply binds is carried into the stored result with exactly its
returned value, out-of-range numbers such as 150 or -5 included. -/
theorem scores_stored_unclamped (fs : List (String × Json)) (f : String)
    (v : Json) (h : lookupField fs f = some v) :
    getField (analyze_resume_with_ai (.ok (.obj fs))) f = some v :=
  foldl_ensure_preserves required_fields fs h

/-- C5 witness: the no-clamping theorem at a reply carrying the
out-of-range score 150. -/
theorem scores_stored_unclamped_witness :
    lookupField [("Overall Fit", Json.num 150)] "Overall Fit"
      = some (Json.num 150)
    ∧ getField (analyze_resume_with_ai (.ok (.obj
        [("Overall Fit", Json.num 150)]))) "Overall Fit"
      = some (Json.num 150) :=
  ⟨rfl, scores_stored_unclamped [("Overall Fit", Json.num 150)]
    "Overall Fit" (Json.num 150) rfl⟩

/-- Stable insertion keeps the list a permutation with the new element in
front. -/
theorem insertLe_perm (le : α → α → Bool) (x : α) (l : List α) :
    List.Perm (insertLe le x l) (x :: l) := by
  induction l with
  | nil => exact List.Perm.refl _
  | cons y ys ih =>
    simp only [insertLe]
    cases h : le x y
    · rw [if_neg (by simp [h])]
      exact (List.Perm.cons y ih).trans (List.Perm.swap x y ys)
    · rw [if_pos rfl]

/-- The stable sort permutes its input. -/
theorem sortLe_perm (le : α → α → Bool) (l : List α) :
    List.Perm (sortLe le l) l := by
  induction l with
  | nil => exact List.Perm.refl _
  | cons x xs ih =>
    exact (insertLe_perm le x (sortLe le xs)).trans (List.Perm.cons x ih)

/-- Inserting into a `le`-sorted list keeps it `le`-sorted, for a total and
transitive comparison. -/
theorem pairwise_insertLe (le : α → α → Bool)
    (total : ∀ a b, le a b = true ∨ le b a = true)
    (htrans : ∀ a b c, le a b = true → le b c = true → le a c = true)
    (x : α) (l : List α) (hl : l.Pairwise (fun a b => le a b = true)) :
    (insertLe le x l).Pairwise (fun a b => le a b = true) := by
  induction l with
  | nil => simp [insertLe]
  | cons y ys ih =>
    rcases List.pairwise_cons.mp hl with ⟨hy, hys⟩
    simp only [insertLe]
    cases hxy : le x y
    · rw [if_neg (by simp [hxy])]
      refine List.pairwise_cons.mpr ⟨?_, ih hys⟩
      intro z hz
      rcases List.mem_cons.mp ((insertLe_perm le x ys).mem_iff.mp hz) with rfl | hz2
      · rcases total z y with h | h
        · rw [hxy] at h; cases h
        · exact h
      · exact hy z hz2
    · rw [if_pos rfl]
      refine List.pairwise_cons.mpr ⟨?_, hl⟩
      intro z hz
      rcases List.mem_cons.mp hz with rfl | hz2
      · exact hxy
      · exact htrans x y z hxy (hy z hz2)

/-- The stable sort sorts, for a total and transitive comparison. -/
theorem pairwise_sortLe (le : α → α → Bool)
    (total : ∀ a b, le a b = true ∨ le b a = true)
    (htrans : ∀ a b c, le a b = true → le b c = true → le a c = true)
    (l : List α) :
    (sortLe le l).Pairwise (fun a b => le a b = true) := by
  induction l with
  | nil => simp [sortLe]
  | cons x xs ih => exact pairwise_insertLe le total htrans x _ ih

/-- Stability of the insertion step over scored chunks: inserting an
element whose original position precedes every position in the list keeps
the strict distance-then-position precedence pairwise. -/
theorem strict_insertLe (x : Nat × String × Int)
    (l : List (Nat × String × Int)) (hl : l.Pairwise StrictRank)
    (hidx : ∀ y ∈ l, x.1 < y.1) :
    (insertLe (fun a b => a.2.2 ≤ b.2.2) x l).Pairwise StrictRank := by
  induction l with
  | nil => simp [insertLe]
  | cons y ys ih =>
    rcases List.pairwise_cons.mp hl with ⟨hy, hys⟩
    simp only [insertLe]
    by_cases hxy : x.2.2 ≤ y.2.2
    · rw [if_pos (by simp [hxy])]
      refine List.pairwise_cons.mpr ⟨?_, hl⟩
      intro z hz
      rcases List.mem_cons.mp hz with rfl | hz2
      · rcases lt_or_eq_of_le hxy with h | h
        · exact Or.inl h
        · exact Or.inr ⟨h, hidx z (List.mem_cons_self z ys)⟩
      · have hyz : y.2.2 ≤ z.2.2 := by
          rcases hy z hz2 with h | ⟨h, _⟩
          · exact le_of_lt h
          · exact le_of_eq h
        rcases lt_or_eq_of_le (le_trans hxy hyz) with h | h
        · exact Or.inl h
        · exact Or.inr ⟨h, hidx z (List.mem_cons_of_mem y hz2)⟩
    · have hylt : y.2.2 < x.2.2 := by omega
      rw [if_neg (by simp [hxy])]
      refine List.pairwise_cons.mpr ⟨?_, ?_⟩
      · intro z hz
        rcases List.mem_cons.mp
            ((insertLe_perm (fun a b => a.2.2 ≤ b.2.2) x ys).mem_iff.mp hz)
          with rfl | hz2
        · exact Or.inl hylt
        · exact hy z hz2
      · exact ih hys fun z hz => hidx z (List.mem_cons_of_mem y hz)

/-- Stability of the stable sort over scored chunks: on input with
strictly increasing original positions, the output is pairwise in strict
distance-then-position precedence — ties keep their original order. -/
theorem strict_sortLe (l : List (Nat × String × Int))
    (h : l.Pairwise (fun a b => a.1 < b.1)) :
    (sortLe (fun a b => a.2.2 ≤ b.2.2) l).Pairwise StrictRank := by
  induction l with
  | nil => simp [sortLe]
  | cons x xs ih =>
    rcases List.pairwise_cons.mp h with ⟨hx, hxs⟩
    refine strict_insertLe x _ (ih hxs) ?_
    intro y hy
    exact hx y ((sortLe_perm (fun a b => a.2.2 ≤ b.2.2) xs).mem_iff.mp hy)

/-- Position indices attached from `n` on are strictly increasing. -/
theorem pairwise_lt_enumFrom (n : Nat) (l : List α) :
    (List.enumFrom n l).Pairwise (fun a b => a.1 < b.1) := by
  induction l generalizing n with
  | nil => simp
  | cons x xs ih =>
    simp only [List.enumFrom]
    refine List.pairwise_cons.mpr ⟨?_, ih (n + 1)⟩
    intro p hp
    have := (List.mem_enumFrom hp).1
    omega

/-- Position indices attached by `enum` are strictly increasing. -/
theorem pairwise_lt_enum (l : List α) :
    l.enum.Pairwise (fun a b => a.1 < b.1) :=
  pairwise_lt_enumFrom 0 l

/-- C7: for every scored-chunk list and bound k (default 5 in `query`),
the top-k selection returns (chunk, distance) pairs ordered ascending by
distance, ties broken by the chunks' original positions (a stable sort),
its length is `min k` the number of chunks, it is a prefix of the full
stable sort — which permutes the indexed input — and when fewer than k
chunks exist all of them are returned. -/
theorem query_topk_sorted_stable (pairs : List (String × Int)) (k : Nat) :
    (query pairs k).Pairwise (fun a b => a.2.2 ≤ b.2.2)
    ∧ (query pairs k).Pairwise (fun a b => a.2.2 = b.2.2 → a.1 < b.1)
    ∧ (query pairs k).length = min k pairs.length
    ∧ query pairs k ++ (sortLe (fun a b => a.2.2 ≤ b.2.2) pairs.enum).drop k
        = sortLe (fun a b => a.2.2 ≤ b.2.2) pairs.enum
    ∧ List.Perm (sortLe (fun a b => a.2.2 ≤ b.2.2) pairs.enum) pairs.enum
    ∧ (pairs.length ≤ k → List.Perm (query pairs k) pairs.enum) := by
  have hstrict := strict_sortLe pairs.enum (pairwise_lt_enum pairs)
  have hperm := sortLe_perm
    (fun a b : Nat × String × Int => a.2.2 ≤ b.2.2) pairs.enum
  have hlen : (sortLe (fun a b : Nat × String × Int => a.2.2 ≤ b.2.2)
      pairs.enum).length = pairs.length := by
    rw [hperm.length_eq, List.enum_length]
  have htake := hstrict.sublist (List.take_sublist k _)
  refine ⟨?_, ?_, ?_, List.take_append_drop k _, hperm, ?_⟩
  · refine htake.imp fun h => ?_
    rcases h with h | ⟨h, _⟩
    · exact le_of_lt h
    · exact le_of_eq h
  · refine htake.imp fun h heq => ?_
    rcases h with h | ⟨_, h2⟩
    · exact absurd heq (ne_of_lt h)
    · exact h2
  · simp only [query, List.length_take, hlen]
  · intro hk
    have h1 : (sortLe (fun a b : Nat × String × Int => a.2.2 ≤ b.2.2)
        pairs.enum).take k
          = sortLe (fun a b : Nat × String × Int => a.2.2 ≤ b.2.2) pairs.enum :=
      List.take_of_length_le (by rw [hlen]; exact hk)
    show List.Perm ((sortLe (fun a b : Nat × String × Int => a.2.2 ≤ b.2.2)
        pairs.enum).take k) pairs.enum
    rw [h1]
    exact hperm

/-- C10: `get_available_resumes` returns exactly the resumes owned by the
given user whose `s3_resume_key` is non-null and that satisfy the
availability predicate for the given job context, ordered by `created_at`
descending — the non-null storage-key filter and the newest-first ordering
included. -/
theorem get_available_resumes_spec (db : DB) (uid : Nat) (ctx : Option Nat) :
    (∀ r, r ∈ get_available_resumes db uid ctx ↔
        r ∈ db.resumes ∧ r.user_id = uid ∧ r.s3_resume_key.isSome = true
          ∧ is_resume_available_for_analysis db r.id ctx = true)
    ∧ (get_available_resumes db uid ctx).Pairwise
        (fun a b => b.created_at ≤ a.created_at) := by
  constructor
  · intro r
    rw [get_available_resumes, (sortLe_perm _ _).mem_iff, List.mem_filter]
    constructor
    · rintro ⟨hmem, hp⟩
      simp only [Bool.and_eq_true, beq_iff_eq] at hp
      exact ⟨hmem, hp.1.1, hp.1.2, hp.2⟩
    · rintro ⟨hmem, h1, h2, h3⟩
      refine ⟨hmem, ?_⟩
      simp only [Bool.and_eq_true, beq_iff_eq]
      exact ⟨⟨h1, h2⟩, h3⟩
  · have hp := pairwise_sortLe
      (fun a b : Resume => decide (b.created_at ≤ a.created_at))
      (fun a b => by
        rcases Nat.le_total b.created_at a.created_at with h | h
        · exact Or.inl (decide_eq_true h)
        · exact Or.inr (decide_eq_true h))
      (fun a b c hab hbc =>
        decide_eq_true
          (Nat.le_trans (of_decide_eq_true hbc) (of_decide_eq_true hab)))
      (db.resumes.filter fun r =>
        r.user_id == uid &&
        r.s3_resume_key.isSome &&
        is_resume_available_for_analysis db r.id ctx)
    exact hp.imp fun h => of_decide_eq_true h

end RecurAI
